import Mathlib

/-!
# Duckcoin: ledger node (`lnode-src/duckcoin.go`) and miner (`snode-src/duckcoin.go`)

A shallow embedding of the block validator, the balance update, the block
submission handler and the bootstrap of the ledger node, of the difficulty wire
format shared by the two programs, and of the search loop of the miner.

Conventions.
* Go `int64` values are `Int`s; every arithmetic operation of the source wraps
  explicitly (`wrapInt64`).  Go `uint64` values are `Nat`s reduced modulo `2^64`.
* A Go `error` is the `Option` of its message: `none` is `nil`.
* Go strings are `String`s; `len` is the length in bytes of the UTF-8 encoding.
* The global variables of a program are the fields of an explicit state record.
* The package `github.com/quackduck/duckcoin/util` is not part of the sources:
  its functions are the fields of a parameter record `Util`.
-/

namespace Duckcoin

/-! ## Machine integers and the Go library functions the programs call -/

/-- Two's complement reduction of an integer to the range of a Go `int64`. -/
def wrapInt64 (x : Int) : Int := (x + 2 ^ 63) % 2 ^ 64 - 2 ^ 63

/-- Go `a + b` on `int64`. -/
def addInt64 (a b : Int) : Int := wrapInt64 (a + b)

/-- Go `a - b` on `int64`. -/
def subInt64 (a b : Int) : Int := wrapInt64 (a - b)

/-- The largest `int64`. -/
def maxInt64 : Int := 2 ^ 63 - 1

/-- The smallest `int64`. -/
def minInt64 : Int := -(2 ^ 63)

/-- Membership in the range of `int64`. -/
def isInt64 (x : Int) : Prop := minInt64 ≤ x ∧ x ≤ maxInt64

instance (x : Int) : Decidable (isInt64 x) := by
  unfold isInt64; exact inferInstance

/-- Go `strconv.FormatInt(i, 10)`: the decimal numeral, with a leading minus sign for
a negative value. -/
def FormatInt (i : Int) : String :=
  if i < 0 then "-" ++ Nat.repr i.natAbs else Nat.repr i.natAbs

/-- Go `len(s)` on a string: the number of bytes. -/
def len (s : String) : Nat := s.utf8ByteSize

/-! ## Balance maps

`map[string]int64`.  Reading an absent key yields the zero value and adds no key;
assigning to a key overwrites its entry or adds one. -/

/-- The Go type `map[string]int64`, as the list of its entries. -/
abbrev BalanceMap := List (String × Int)

namespace BalanceMap

/-- The map made by `make(map[string]int64)`. -/
def empty : BalanceMap := []

/-- Go `m[k]` as an expression: the stored value, `0` for an absent key. -/
def get : BalanceMap → String → Int
  | [], _ => 0
  | (k', v') :: m, k => if k' = k then v' else get m k

/-- Go `m[k] = v`. -/
def set : BalanceMap → String → Int → BalanceMap
  | [], k, v => [(k, v)]
  | (k', v') :: m, k, v => if k' = k then (k, v) :: m else (k', v') :: set m k v

/-- The keys present in the map. -/
def keys (m : BalanceMap) : List String := m.map Prod.fst

/-- The sum of all the balances of the map, an integer without bound. -/
def total : BalanceMap → Int
  | [] => 0
  | (_, v) :: m => v + total m

end BalanceMap

/-! ## The ledger node -/

namespace Lnode

/-- The type `util.Transaction` as the ledger node uses it; `Amount` is an `int64`
(it is added to the `int64` values of `Balances`). -/
structure Transaction where
  Data : String
  Sender : String
  Receiver : String
  Amount : Int
  PubKey : String
  Signature : String
  deriving DecidableEq, Repr

/-- The type `util.Block` as the ledger node uses it; `Index` is an `int64` (it is the
argument of `strconv.FormatInt`) and `Timestamp` holds `t.Unix()`. -/
structure Block where
  Index : Int
  Timestamp : Int
  Data : String
  Hash : String
  PrevHash : String
  Solution : String
  Solver : String
  Tx : Transaction
  deriving DecidableEq, Repr

/-- The zero value of `util.Transaction`. -/
def Transaction.zero : Transaction := ⟨"", "", "", 0, "", ""⟩

/-- The zero value of `util.Block`, the initial value of the global `NewestBlock`. -/
def Block.zero : Block := ⟨0, 0, "", "", "", "", "", Transaction.zero⟩

/-- The functions of package `util` that the ledger node calls.  `CheckSignature`
returns the pair `(ok, err)`. -/
structure Util where
  CalculateHash : Block → String
  IsHashSolution : String → Int → Bool
  DuckToAddress : String → String
  CheckSignature : String → String → String → Bool × Option String

/-- The constant `Reward`, in microquacks. -/
def Reward : Int := 1000000

/-- The value of a hexadecimal digit. -/
def hexDigitValue (c : Char) : Option Nat :=
  if '0' ≤ c ∧ c ≤ '9' then some (c.toNat - '0'.toNat)
  else if 'a' ≤ c ∧ c ≤ 'f' then some (c.toNat - 'a'.toNat + 10)
  else if 'A' ≤ c ∧ c ≤ 'F' then some (c.toNat - 'A'.toNat + 10)
  else none

/-- Go `new(big.Int).SetString(s, 16)` on a string of hexadecimal digits without sign;
`none` is the failure of the conversion. -/
def setStringHex (s : String) : Option Nat :=
  if s.data = [] then none
  else s.data.foldl (fun acc c => acc.bind fun n => (hexDigitValue c).map fun d => 16 * n + d)
    (some 0)

/-- The initial value of the global `Difficulty`: the target, read from its
hexadecimal numeral. -/
def Difficulty : Int :=
  match setStringHex "0000100000000000000000000000000000000000000000000000000000000000" with
  | some n => (n : Int)
  | none => 0

/-- The global variables of the ledger node. -/
structure Ledger where
  Difficulty : Int
  NewestBlock : Block
  Balances : BalanceMap
  deriving DecidableEq

/-- The globals as the `var` block initialises them. -/
def Ledger.init : Ledger := ⟨Lnode.Difficulty, Block.zero, BalanceMap.empty⟩

/-- The constant `blockDataLimit` of `isValid`. -/
def blockDataLimit : Nat := 1000 * 250

/-- The constant `txDataLimit` of `isValid`. -/
def txDataLimit : Nat := 1000 * 250

/-- The function `isValid(newBlock, oldBlock)`, reading the globals `Difficulty` and
`Balances` of the state `st`.  The result is the message of the returned error,
`none` for `nil`. -/
def isValid (u : Util) (st : Ledger) (newBlock oldBlock : Block) : Option String :=
  if newBlock.Tx.Amount < 0 then
    some "Amount is negative"
  else if addInt64 oldBlock.Index 1 ≠ newBlock.Index then
    some ("Index should be " ++ FormatInt (addInt64 oldBlock.Index 1))
  else if oldBlock.Hash ≠ newBlock.PrevHash then
    some ("PrevHash should be " ++ oldBlock.Hash)
  else if u.CalculateHash newBlock ≠ newBlock.Hash then
    some "Block Hash is incorrect. This usually happens if your Difficulty is set incorrectly. Restart your miner."
  else if !u.IsHashSolution newBlock.Hash st.Difficulty then
    some "Block is not a solution (does not have Difficulty zeros in hash)"
  else if len newBlock.Data > blockDataLimit then
    some "Block's Data field is too large. Should be >= 250 kb"
  else if len newBlock.Tx.Data > txDataLimit then
    some "Transaction's Data field is too large. Should be >= 250 kb"
  else if newBlock.Tx.Amount > 0 then
    if u.DuckToAddress newBlock.Tx.PubKey ≠ newBlock.Tx.Sender then
      some "Pubkey does not match sender address"
    else
      match u.CheckSignature newBlock.Tx.Signature newBlock.Tx.PubKey newBlock.Hash with
      | (false, some err) => some err
      | (false, none) => some "Invalid signature"
      | (true, _) =>
        if newBlock.Tx.Sender = newBlock.Solver then
          if BalanceMap.get st.Balances newBlock.Tx.Sender < newBlock.Tx.Amount then
            some "Insufficient balance"
          else none
        else
          if BalanceMap.get st.Balances newBlock.Tx.Sender < newBlock.Tx.Amount then
            some "Insufficient balance"
          else none
  else none

/-- Go `Balances[k] += d`. -/
def addTo (m : BalanceMap) (k : String) (d : Int) : BalanceMap :=
  BalanceMap.set m k (addInt64 (BalanceMap.get m k) d)

/-- Go `Balances[k] -= d`. -/
def subFrom (m : BalanceMap) (k : String) (d : Int) : BalanceMap :=
  BalanceMap.set m k (subInt64 (BalanceMap.get m k) d)

/-- The function `addBlockToChain(b)` on the globals.  The writes to the three files
come after the assignments below and only print a message when they fail, so the
resulting values of `NewestBlock` and `Balances` do not depend on them. -/
def addBlockToChain (st : Ledger) (b : Block) : Ledger :=
  let bal1 := addTo st.Balances b.Solver Reward
  let bal2 :=
    if b.Tx.Amount > 0 then
      addTo (subFrom (subFrom bal1 b.Solver Reward) b.Solver b.Tx.Amount) b.Tx.Receiver
        b.Tx.Amount
    else bal1
  { st with NewestBlock := b, Balances := bal2 }

/-- The balances that `addBlockToChain(b)` writes are the exact integers, none wrapped:
for a transaction block the balance of the solver less the amount, and the balance
of the receiver, read after that debit, plus the amount; for another block the
balance of the solver plus `Reward`. -/
def UpdateExact (st : Ledger) (b : Block) : Prop :=
  if b.Tx.Amount > 0 then
    isInt64 (BalanceMap.get st.Balances b.Solver - b.Tx.Amount) ∧
    isInt64 (BalanceMap.get (subFrom st.Balances b.Solver b.Tx.Amount) b.Tx.Receiver
      + b.Tx.Amount)
  else isInt64 (BalanceMap.get st.Balances b.Solver + Reward)

instance (st : Ledger) (b : Block) : Decidable (UpdateExact st b) := by
  unfold UpdateExact; exact inferInstance

/-- What `respondWithJSON` is given to marshal: a message, or the request body. -/
inductive Payload where
  | text (s : String)
  | requestBody
  deriving DecidableEq, Repr

/-- The status code and the payload handed to `respondWithJSON`. -/
structure Response where
  code : Nat
  payload : Payload
  deriving DecidableEq, Repr

/-- The constant `http.StatusBadRequest`. -/
def StatusBadRequest : Nat := 400

/-- The constant `http.StatusCreated`. -/
def StatusCreated : Nat := 201

/-- The function `handleWriteBlock`.  `decoded` is the outcome of decoding the request
body: `none` when `decoder.Decode` fails. -/
def handleWriteBlock (u : Util) (st : Ledger) (decoded : Option Block) : Response × Ledger :=
  match decoded with
  | none => (⟨StatusBadRequest, Payload.requestBody⟩, st)
  | some b =>
    match isValid u st b st.NewestBlock with
    | none => (⟨StatusCreated, Payload.text "Block accepted."⟩, addBlockToChain st b)
    | some err => (⟨StatusBadRequest, Payload.text ("Invalid block. " ++ err)⟩, st)

/-- The outcome of the file operations of `setupNewBlockchain`, in the order of the
source: `os.Create`, `f.Write`, `f.Close`, and the two calls of `ioutil.WriteFile`. -/
structure FileOutcome where
  create : Option String
  write : Option String
  close : Option String
  writeNewest : Option String
  writeBalances : Option String

/-- All file operations succeed. -/
def FileOutcome.ok : FileOutcome := ⟨none, none, none, none, none⟩

/-- The block literal of `setupNewBlockchain`, before its hash is filled in; `t` is
`time.Now().Unix()`. -/
def genesisLiteral (t : Int) : Block :=
  { Index := 0
    Timestamp := t
    Data := "Genesis block. Thank you so much to Jason Antwi-Appah for the incredible name that is Duckcoin. QUACK!"
    Hash := ""
    PrevHash := "🐤"
    Solution := "Go Gophers and DUCKS! github.com/quackduck"
    Solver := "Ishan Goel (quackduck on GitHub)"
    Tx := { Data := "Genesis transaction", Sender := "", Receiver := "", Amount := 0,
            PubKey := "", Signature := "" } }

/-- The value of `genesisBlock` after `genesisBlock.Hash = util.CalculateHash(genesisBlock)`. -/
def genesisBlock (u : Util) (t : Int) : Block :=
  { genesisLiteral t with Hash := u.CalculateHash (genesisLiteral t) }

/-- The function `setupNewBlockchain`: the returned error and the globals afterwards. -/
def setupNewBlockchain (u : Util) (t : Int) (io : FileOutcome) (st : Ledger) :
    Option String × Ledger :=
  match io.create with
  | some e => (some e, st)
  | none =>
    match io.write with
    | some e => (some e, st)
    | none =>
      match io.close with
      | some e => (some e, st)
      | none =>
        let st1 : Ledger := { st with NewestBlock := genesisBlock u t }
        match io.writeNewest with
        | some e => (some e, st1)
        | none =>
          match io.writeBalances with
          | some e => (some e, st1)
          | none => (none, st1)

/-! ### The validator as the specification lists it -/

/-- One rule of the block validator: whether it holds, and the reason reported
when it is the first to fail. -/
structure Rule where
  holds : Bool
  reason : String

/-- The reason of the first rule that fails, `none` when every rule holds. -/
def firstFailure : List Rule → Option String
  | [] => none
  | r :: rs => if r.holds then firstFailure rs else some r.reason

/-- Rules 1 to 5 of the specification: amount, index, previous hash, hash, proof of
work. -/
def linkRules (u : Util) (st : Ledger) (candidate head : Block) : List Rule :=
  [ ⟨decide (¬ candidate.Tx.Amount < 0), "Amount is negative"⟩,
    ⟨decide (candidate.Index = addInt64 head.Index 1),
      "Index should be " ++ FormatInt (addInt64 head.Index 1)⟩,
    ⟨decide (candidate.PrevHash = head.Hash), "PrevHash should be " ++ head.Hash⟩,
    ⟨decide (u.CalculateHash candidate = candidate.Hash),
      "Block Hash is incorrect. This usually happens if your Difficulty is set incorrectly. Restart your miner."⟩,
    ⟨u.IsHashSolution candidate.Hash st.Difficulty,
      "Block is not a solution (does not have Difficulty zeros in hash)"⟩ ]

/-- Rules 6 and 7 of the specification: the two size limits of 250000 bytes. -/
def sizeRules (candidate : Block) : List Rule :=
  [ ⟨decide (len candidate.Data ≤ 250000),
      "Block's Data field is too large. Should be >= 250 kb"⟩,
    ⟨decide (len candidate.Tx.Data ≤ 250000),
      "Transaction's Data field is too large. Should be >= 250 kb"⟩ ]

/-- Rules 8a, 8b and 8c of the specification, each required only when the amount is
positive.  The reason of 8b is the error of the signature check when it reports one. -/
def txRules (u : Util) (st : Ledger) (candidate : Block) : List Rule :=
  [ ⟨decide (candidate.Tx.Amount > 0 →
        u.DuckToAddress candidate.Tx.PubKey = candidate.Tx.Sender),
      "Pubkey does not match sender address"⟩,
    ⟨decide (candidate.Tx.Amount > 0 →
        (u.CheckSignature candidate.Tx.Signature candidate.Tx.PubKey candidate.Hash).1 = true),
      match (u.CheckSignature candidate.Tx.Signature candidate.Tx.PubKey candidate.Hash).2 with
      | some err => err
      | none => "Invalid signature"⟩,
    ⟨decide (candidate.Tx.Amount > 0 →
        BalanceMap.get st.Balances candidate.Tx.Sender ≥ candidate.Tx.Amount),
      "Insufficient balance"⟩ ]

/-- The rules of the specification, in its order. -/
def specRules (u : Util) (st : Ledger) (candidate head : Block) : List Rule :=
  linkRules u st candidate head ++ sizeRules candidate ++ txRules u st candidate

/-- The rules of the specification hold, all of them. -/
def RulesHold (u : Util) (st : Ledger) (candidate head : Block) : Prop :=
  0 ≤ candidate.Tx.Amount ∧
  candidate.Index = addInt64 head.Index 1 ∧
  candidate.PrevHash = head.Hash ∧
  u.CalculateHash candidate = candidate.Hash ∧
  u.IsHashSolution candidate.Hash st.Difficulty = true ∧
  len candidate.Data ≤ 250000 ∧
  len candidate.Tx.Data ≤ 250000 ∧
  (candidate.Tx.Amount > 0 →
    u.DuckToAddress candidate.Tx.PubKey = candidate.Tx.Sender ∧
    (u.CheckSignature candidate.Tx.Signature candidate.Tx.PubKey candidate.Hash).1 = true ∧
    BalanceMap.get st.Balances candidate.Tx.Sender ≥ candidate.Tx.Amount)

/-! ### Sequences of submissions -/

/-- The blocks of `bs` are submitted in turn with `handleWriteBlock`: the final state,
and the submitted blocks that were accepted, in their order. -/
def submitAll (u : Util) : Ledger → List Block → Ledger × List Block
  | st, [] => (st, [])
  | st, b :: bs =>
    let r := handleWriteBlock u st (some b)
    let rest := submitAll u r.2 bs
    (rest.1, if r.1.code = StatusCreated then b :: rest.2 else rest.2)

/-- The chain `B0 .. Bn` that the submissions `bs` build on the state `st`: the head of
`st`, then the accepted blocks. -/
def acceptedChain (u : Util) (st : Ledger) (bs : List Block) : List Block :=
  st.NewestBlock :: (submitAll u st bs).2

/-- The relation between a head and the block accepted on it. -/
def Linked (u : Util) (a b : Block) : Prop :=
  b.Index = addInt64 a.Index 1 ∧ b.PrevHash = a.Hash ∧ u.CalculateHash b = b.Hash

/-- The hash function leaves the field `Hash` of its argument out of its input (the
specification of canonical hashing). -/
def HashExcludesHash (u : Util) : Prop :=
  ∀ (b : Block) (h : String), u.CalculateHash { b with Hash := h } = u.CalculateHash b

/-! ### Calls of `handleWriteBlock` that overlap

Both listeners of `main` serve the one router, every request in a goroutine of its own,
and `handleWriteBlock` takes no lock: between its call of `isValid` (line 276) and its
call of `addBlockToChain` (line 277) another call can run.  A call is followed here
through these two steps, each of them undivided. -/

/-- Where a call of `handleWriteBlock` stands: no request, the block decoded, `isValid`
returned `nil` and `addBlockToChain` is still to run, or the response written. -/
inductive Call where
  | idle
  | decoded (b : Block)
  | validated (b : Block)
  | responded (r : Response)
  deriving DecidableEq, Repr

/-- The globals of the ledger node and the calls of `handleWriteBlock` under way,
numbered. -/
structure Server where
  ledger : Ledger
  calls : Nat → Call

/-- The call number `i` runs its next step: on a decoded block `isValid` on the globals
as they are now, on a validated block `addBlockToChain` and the answer 201. -/
def Server.step (u : Util) (s : Server) (i : Nat) : Server :=
  match s.calls i with
  | Call.decoded b =>
    match isValid u s.ledger b s.ledger.NewestBlock with
    | none => { s with calls := Function.update s.calls i (Call.validated b) }
    | some err =>
      let r : Response := ⟨StatusBadRequest, Payload.text ("Invalid block. " ++ err)⟩
      { s with calls := Function.update s.calls i (Call.responded r) }
  | Call.validated b =>
    let r : Response := ⟨StatusCreated, Payload.text "Block accepted."⟩
    { ledger := addBlockToChain s.ledger b
      calls := Function.update s.calls i (Call.responded r) }
  | Call.idle => s
  | Call.responded _ => s

/-- The steps of a schedule, a list of call numbers, run in its order. -/
def Server.run (u : Util) : Server → List Nat → Server
  | s, [] => s
  | s, i :: schedule => Server.run u (Server.step u s i) schedule

/-- The calls that the submissions `bs` start: call `i` has decoded the block `i`. -/
def requests (bs : List Block) : Nat → Call :=
  fun i =>
    match bs[i]? with
    | some b => Call.decoded b
    | none => Call.idle

/-- The schedule in which `n` calls, numbered from `k`, run one after the other, the two
steps of each back to back. -/
def serialSchedule : Nat → Nat → List Nat
  | _, 0 => []
  | k, n + 1 => k :: k :: serialSchedule (k + 1) n

/-! ### The difficulty handler -/

/-- Go `(*big.Int).Text(16)`: the lowercase hexadecimal numeral without leading zeros,
with a leading minus sign for a negative value. -/
def Text16 (x : Int) : String :=
  if x < 0 then "-" ++ String.mk (Nat.toDigits 16 x.natAbs)
  else String.mk (Nat.toDigits 16 x.natAbs)

/-- The bytes that the handler of `/difficulty` writes: `Difficulty.Text(16)`. -/
def handleDifficulty (st : Ledger) : String := Text16 st.Difficulty

end Lnode

/-! ## The miner -/

namespace Snode

/-- The two errors of `strconv.ParseInt` on a base and a bit size that are valid. -/
inductive NumError where
  | ErrSyntax
  | ErrRange
  deriving DecidableEq, Repr

/-- The largest `uint64`. -/
def maxUint64 : Nat := 2 ^ 64 - 1

/-- The loop of Go `strconv.ParseUint(s, 10, 64)` over the characters left to read,
`n` being the value read so far: the returned value and error. -/
def parseUintLoop : List Char → Nat → Nat × Option NumError
  | [], n => (n, none)
  | c :: cs, n =>
    if '0' ≤ c ∧ c ≤ '9' then
      let d := c.toNat - '0'.toNat
      if n ≥ maxUint64 / 10 + 1 then (maxUint64, some NumError.ErrRange)
      else
        let n10 := (n * 10) % 2 ^ 64
        let n1 := (n10 + d) % 2 ^ 64
        if n1 < n10 ∨ n1 > maxUint64 then (maxUint64, some NumError.ErrRange)
        else parseUintLoop cs n1
    else (0, some NumError.ErrSyntax)

/-- Go `strconv.ParseUint(s, 10, 64)`. -/
def ParseUint (s : List Char) : Nat × Option NumError :=
  if s = [] then (0, some NumError.ErrSyntax) else parseUintLoop s 0

/-- Go `strconv.ParseInt(s, 10, 64)`: the returned value and error. -/
def ParseInt (s : String) : Int × Option NumError :=
  if s.data = [] then (0, some NumError.ErrSyntax)
  else
    let neg : Bool := s.data.head? = some '-'
    let rest : List Char :=
      if s.data.head? = some '+' ∨ s.data.head? = some '-' then s.data.tail else s.data
    match ParseUint rest with
    | (_, some NumError.ErrSyntax) => (0, some NumError.ErrSyntax)
    | (un, _) =>
      if !neg ∧ un ≥ 2 ^ 63 then (2 ^ 63 - 1, some NumError.ErrRange)
      else if neg ∧ un > 2 ^ 63 then (-(2 ^ 63), some NumError.ErrRange)
      else (if neg then -(un : Int) else (un : Int), none)

/-- The globals `URL` and `Difficulty` of the miner; `Difficulty` is a `uint64`. -/
structure Globals where
  URL : String
  Difficulty : Nat
  deriving DecidableEq, Repr

/-- What `loadDifficultyAndURL` gets from outside: the result of reading the file with
the URL, the function `strings.TrimSpace`, and the result of the request to an
address (the body read by `io.ReadAll`, or the error of the request or of the read). -/
structure Env where
  readURLFile : Except String String
  TrimSpace : String → String
  httpGet : String → Except String String

/-- The error that `loadDifficultyAndURL` returns. -/
inductive LoadError where
  | request (msg : String)
  | parse (e : NumError)
  deriving DecidableEq, Repr

/-- The function `loadDifficultyAndURL`: the returned error and the globals afterwards.
When the file cannot be read the default URL is written to it and `nil` is returned. -/
def loadDifficultyAndURL (env : Env) (g : Globals) : Option LoadError × Globals :=
  match env.readURLFile with
  | .error _ => (none, g)
  | .ok data =>
    let g1 : Globals := { g with URL := env.TrimSpace data }
    match env.httpGet (g1.URL ++ "/difficulty") with
    | .error e => (some (LoadError.request e), g1)
    | .ok b =>
      match ParseInt b with
      | (_, some e) => (some (LoadError.parse e), g1)
      | (difficultyInt64, none) =>
        (none, { g1 with Difficulty := (difficultyInt64 % 2 ^ 64).toNat })

/-- Modelled from the spec: the declaration of `util.Transaction` that the miner is
compiled against is not in the sources.  The fields are those the miner assigns;
`Amount` is the `uint64` of the `amount` argument of `mine`. -/
structure Transaction where
  Data : String
  Sender : String
  Receiver : String
  Amount : Nat
  PubKey : String
  Signature : String
  deriving DecidableEq, Repr

/-- Modelled from the spec: the declaration of `util.Block` that the miner is compiled
against is not in the sources.  The fields are those the miner assigns; `Timestamp`
is the `uint64` assigned to it, and `Index`, a non-negative integer in the
specification, is taken to be a `uint64` as well. -/
structure Block where
  Index : Nat
  Timestamp : Nat
  Data : String
  Hash : String
  PrevHash : String
  Solution : String
  Solver : String
  Tx : Transaction
  deriving DecidableEq, Repr

/-- The zero value of the miner's `util.Transaction`. -/
def Transaction.zero : Transaction := ⟨"", "", "", 0, "", ""⟩

/-- The zero value of the miner's `util.Block`: the value of `new(util.Block)`. -/
def Block.zero : Block := ⟨0, 0, "", "", "", "", "", Transaction.zero⟩

/-- The functions of package `util` that `makeBlock` calls; a hash is a list of bytes
and a target is an integer. -/
structure Util where
  GetTarget : Nat → Int
  CalculateHashBytes : Block → List Nat
  IsHashValidBytes : List Nat → Int → Bool
  CalculateHash : Block → String
  MakeSignature : String → String → Except String String

/-- The arguments of `makeBlock` other than the channel. -/
structure Args where
  privkey : String
  data : String
  solver : String
  tx : Transaction

/-- The variables of the search loop of `makeBlock`: the head being mined on, the
block under construction, and the nonce counter (an `int64`). -/
structure SearchState where
  oldBlock : Block
  newBlock : Block
  i : Int
  deriving DecidableEq, Repr

/-- The statements of `makeBlock` from the label `Restart` to the initialisation
`i = 0` of the loop; `now` is `time.Now().UnixMilli()`. -/
def restart (a : Args) (now : Int) (oldBlock newBlock : Block) : SearchState :=
  let nb : Block :=
    { newBlock with
      Timestamp := (now % 2 ^ 64).toNat
      Index := (oldBlock.Index + 1) % 2 ^ 64
      Data := a.data
      PrevHash := oldBlock.Hash
      Solver := a.solver
      Tx := a.tx }
  let nb : Block :=
    if nb.Tx.Amount = 0 then
      { nb with Tx := { nb.Tx with Data := "", Sender := "", Receiver := "", PubKey := "",
                                   Signature := "" } }
    else nb
  { oldBlock := oldBlock, newBlock := nb, i := 0 }

/-- What one iteration of the loop `Mine` leads to: the loop goes on, or `makeBlock`
returns, having sent the block to the server or not. -/
inductive Outcome where
  | searching (s : SearchState)
  | returned (newBlock : Block) (sent : Bool)
  deriving DecidableEq, Repr

/-- One iteration of the loop `Mine`.  `mailbox` is what the `select` finds in
`blockChan` (`none`: the `default` case runs), `now` is the time read if the search
restarts, `postOk` tells whether the request that submits the block and the read of
its answer succeed.  The report of the hash rate every `2^19` iterations prints and
updates two local variables that nothing else reads; it is left out. -/
def iterate (u : Util) (a : Args) (target : Int) (mailbox : Option Block) (now : Int)
    (postOk : Bool) (s : SearchState) : Outcome :=
  match mailbox with
  | some b =>
    if s.oldBlock ≠ b then Outcome.searching (restart a now b s.newBlock)
    else Outcome.searching { s with i := addInt64 s.i 1 }
  | none =>
    let nb : Block := { s.newBlock with Solution := FormatInt s.i }
    if !u.IsHashValidBytes (u.CalculateHashBytes nb) target then
      Outcome.searching { s with newBlock := nb, i := addInt64 s.i 1 }
    else
      let nb : Block := { nb with Hash := u.CalculateHash nb }
      if nb.Tx.Amount ≠ 0 then
        match u.MakeSignature a.privkey nb.Hash with
        | .error _ => Outcome.returned nb false
        | .ok signature =>
          Outcome.returned { nb with Tx := { nb.Tx with Signature := signature } } postOk
      else Outcome.returned nb postOk

/-- The block under construction after an iteration. -/
def Outcome.block : Outcome → Block
  | Outcome.searching s => s.newBlock
  | Outcome.returned nb _ => nb

/-- The solution that the next run of the `default` case tries in state `s`. -/
def nextSolution (s : SearchState) : String := FormatInt s.i

/-- The loop `Mine` run for at most `fuel` iterations; iteration `k` finds
`mailbox k` in the channel and reads the time `now k`. -/
def search (u : Util) (a : Args) (target : Int) (mailbox : Nat → Option Block)
    (now : Nat → Int) (postOk : Bool) : Nat → Nat → SearchState → Outcome
  | 0, _, s => Outcome.searching s
  | fuel + 1, k, s =>
    match iterate u a target (mailbox k) (now k) postOk s with
    | Outcome.searching s1 => search u a target mailbox now postOk fuel (k + 1) s1
    | Outcome.returned nb sent => Outcome.returned nb sent

/-- The function `makeBlock` from `oldBlock := <-blockChan` on, `first` being the block
received there and `start` the time read at the first pass through `Restart`;
`Difficulty` is the global as the call of `loadDifficultyAndURL` before leaves it. -/
def makeBlock (u : Util) (a : Args) (Difficulty : Nat) (first : Block) (start : Int)
    (mailbox : Nat → Option Block) (now : Nat → Int) (postOk : Bool) (fuel : Nat) : Outcome :=
  search u a (u.GetTarget Difficulty) mailbox now postOk fuel 0
    (restart a start first Block.zero)

/-- One poll of the monitor loop of `mine`: `b` is the head the search was last told
of, `currBlock` the head just fetched.  The result is the new value of `b` and the
block sent on `blockChan`, if any. -/
def monitorPoll (Address : String) (b currBlock : Block) : Block × Option Block :=
  if currBlock ≠ b then
    if currBlock.Solver ≠ Address then (currBlock, some currBlock) else (b, none)
  else (b, none)

end Snode

/-! ## Concrete data

A stand-in for package `util` with which the definitions can be evaluated, and the
ledger states and blocks that the examples use. -/

namespace Sample

open Lnode

/-- A stand-in for `util`: the hash lists the fields that are hashed, every hash is a
solution, an address is its key with a mark, and a signature is valid when it names
the key and the message. -/
def util : Util where
  CalculateHash := fun b =>
    FormatInt b.Index ++ "|" ++ b.PrevHash ++ "|" ++ b.Solution ++ "|" ++ b.Solver ++ "|"
      ++ b.Tx.Sender ++ "|" ++ b.Tx.Receiver ++ "|" ++ FormatInt b.Tx.Amount
  IsHashSolution := fun _ _ => true
  DuckToAddress := fun k => "@" ++ k
  CheckSignature := fun sig key msg => (decide (sig = key ++ "/" ++ msg), none)

/-- A head at index 0 with hash `"h0"`. -/
def head0 : Block := { Block.zero with Hash := "h0" }

/-- The block `b` with its `Hash` set to the hash of `util` and its signature to the one
`util` accepts. -/
def stamp (b : Block) : Block :=
  let h := util.CalculateHash b
  { b with Hash := h, Tx := { b.Tx with Signature := b.Tx.PubKey ++ "/" ++ h } }

/-- A block that carries no transaction, mined by `"miner"` on `head0`. -/
def rewardBlock : Block :=
  stamp { Block.zero with Index := 1, PrevHash := "h0", Solution := "7", Solver := "miner" }

/-- A block mined by `"miner"` on `head0` in which `"@alice"` sends 2000000 microquacks
to `"@bob"`. -/
def transferBlock : Block :=
  stamp { Block.zero with
    Index := 1, PrevHash := "h0", Solution := "7", Solver := "miner",
    Tx := { Data := "", Sender := "@alice", Receiver := "@bob", Amount := 2000000,
            PubKey := "alice", Signature := "" } }

/-- A ledger with head `head0` in which `"@alice"` holds 10000000 microquacks. -/
def ledger : Ledger :=
  { Difficulty := Lnode.Difficulty, NewestBlock := head0,
    Balances := [("@alice", 10000000)] }

/-- What the miner finds outside when the ledger node of `Ledger.init` answers it: a
file with the URL, without space around it, and the text of the difficulty handler. -/
def env : Snode.Env where
  readURLFile := .ok "http://ledger:8080"
  TrimSpace := fun s => s
  httpGet := fun url =>
    if url = "http://ledger:8080/difficulty" then .ok (handleDifficulty Ledger.init)
    else .error "no such route"

/-- The globals of the miner at start: the default URL and the zero difficulty. -/
def globals : Snode.Globals := { URL := "http://devzat.hackclub.com:8080", Difficulty := 0 }

/-- A block mined by `"@alice"` on `head0` in which `"@alice"` sends 2000000 microquacks
to herself: solver, sender and receiver are one address. -/
def selfTransferBlock : Block :=
  stamp { Block.zero with
    Index := 1, PrevHash := "h0", Solution := "7", Solver := "@alice",
    Tx := { Data := "", Sender := "@alice", Receiver := "@alice", Amount := 2000000,
            PubKey := "alice", Signature := "" } }

/-- A block without transaction mined by `"duck"` on `head0`, as `rewardBlock` is by
`"miner"`. -/
def rivalBlock : Block :=
  stamp { Block.zero with Index := 1, PrevHash := "h0", Solution := "9", Solver := "duck" }

/-- A ledger with head `head0` in which `"miner"` holds the largest `int64`. -/
def fullLedger : Ledger :=
  { Difficulty := Lnode.Difficulty, NewestBlock := head0,
    Balances := [("miner", 9223372036854775807)] }

/-- The ledger of the examples with two calls under way, one for `rewardBlock` and one
for `rivalBlock`. -/
def twoCalls : Server := { ledger := ledger, calls := requests [rewardBlock, rivalBlock] }

/-- A block with index 5 whose other fields are zero values. -/
def block5 : Block := { Block.zero with Index := 5 }

/-- A block without transaction mined by `"miner"` on the genesis block that `util`
and the time 0 give. -/
def block1 : Block :=
  stamp { Block.zero with
    Index := 1, PrevHash := (genesisBlock util 0).Hash, Solution := "3", Solver := "miner" }

/-- A block without transaction mined by `"duck"` on `block1`. -/
def block2 : Block :=
  stamp { Block.zero with
    Index := 2, PrevHash := block1.Hash, Solution := "11", Solver := "duck" }

/-- A stand-in for the functions of `util` that the miner calls: a block is a solution
when its nonce has two digits. -/
def minerUtil : Snode.Util where
  GetTarget := fun d => (2 ^ 256 - 1) / (d : Int)
  CalculateHashBytes := fun b => [b.Solution.length]
  IsHashValidBytes := fun bytes _ => decide (bytes = [2])
  CalculateHash := fun b => b.PrevHash ++ "|" ++ b.Solution
  MakeSignature := fun key msg => .ok (key ++ "/" ++ msg)

/-- The arguments of a miner that sends no transaction. -/
def minerArgs : Snode.Args :=
  { privkey := "secret", data := "Mined using the official Duckcoin CLI", solver := "@me",
    tx := Snode.Transaction.zero }

/-- A head with index 6 and hash `"h6"`. -/
def head6 : Snode.Block := { Snode.Block.zero with Index := 6, Hash := "h6", Solver := "@a" }

/-- A head with index 7 and hash `"h7"`, solved by someone else. -/
def head7 : Snode.Block :=
  { Snode.Block.zero with Index := 7, Hash := "h7", PrevHash := "h6", Solver := "@b" }

/-- A search on `head6` that has reached the nonce 41. -/
def searching41 : Snode.SearchState :=
  { Snode.restart minerArgs 1000 head6 Snode.Block.zero with i := 41 }

end Sample


/-! ## Lemmas on machine integers and balance maps -/

theorem wrapInt64_of_isInt64 {x : Int} (h : isInt64 x) : wrapInt64 x = x := by
  unfold isInt64 minInt64 maxInt64 at h
  unfold wrapInt64
  omega

theorem isInt64_wrapInt64 (x : Int) : isInt64 (wrapInt64 x) := by
  unfold isInt64 minInt64 maxInt64 wrapInt64
  omega

namespace BalanceMap

theorem get_set_same (m : BalanceMap) (k : String) (v : Int) : get (set m k v) k = v := by
  induction m with
  | nil => simp [set, get]
  | cons e m ih =>
    obtain ⟨k', v'⟩ := e
    by_cases hk : k' = k
    · simp [set, get, hk]
    · simp [set, get, hk, ih]

theorem get_set_ne (m : BalanceMap) {k a : String} (v : Int) (h : a ≠ k) :
    get (set m k v) a = get m a := by
  induction m with
  | nil => simp [set, get, Ne.symm h]
  | cons e m ih =>
    obtain ⟨k', v'⟩ := e
    by_cases hk : k' = k
    · subst hk
      simp [set, get, Ne.symm h]
    · by_cases ha : k' = a
      · subst ha
        simp [set, get, h]
      · simp [set, get, hk, ha, ih]

theorem get_eq_zero_of_not_mem (m : BalanceMap) {a : String} (h : a ∉ keys m) :
    get m a = 0 := by
  induction m with
  | nil => simp [get]
  | cons e m ih =>
    obtain ⟨k', v'⟩ := e
    simp only [keys, List.map_cons, List.mem_cons, not_or] at h
    have hk : ¬ k' = a := fun hk => h.1 hk.symm
    simp only [get, hk, if_false]
    exact ih h.2

theorem mem_keys_set (m : BalanceMap) (k a : String) (v : Int) :
    a ∈ keys (set m k v) ↔ a = k ∨ a ∈ keys m := by
  induction m with
  | nil => simp [set, keys]
  | cons e m ih =>
    obtain ⟨k', v'⟩ := e
    by_cases hk : k' = k
    · subst hk
      simp [set, keys]
    · simp only [set, hk, if_false]
      simp only [keys, List.map_cons, List.mem_cons] at ih ⊢
      rw [ih]
      tauto

theorem total_set (m : BalanceMap) (k : String) (v : Int) :
    total (set m k v) = total m - get m k + v := by
  induction m with
  | nil => simp [set, get, total]
  | cons e m ih =>
    obtain ⟨k', v'⟩ := e
    by_cases hk : k' = k
    · simp only [set, get, total, hk, if_true]
      omega
    · simp only [set, get, total, hk, if_false, ih]
      omega

end BalanceMap

theorem subInt64_subInt64_addInt64 (x r a : Int) :
    subInt64 (subInt64 (addInt64 x r) r) a = subInt64 x a := by
  unfold subInt64 addInt64 wrapInt64
  omega

namespace Lnode

theorem get_addTo_same (m : BalanceMap) (k : String) (d : Int) :
    BalanceMap.get (addTo m k d) k = addInt64 (BalanceMap.get m k) d :=
  BalanceMap.get_set_same _ _ _

theorem get_addTo_ne (m : BalanceMap) {k a : String} (d : Int) (h : a ≠ k) :
    BalanceMap.get (addTo m k d) a = BalanceMap.get m a :=
  BalanceMap.get_set_ne _ _ h

theorem get_subFrom_same (m : BalanceMap) (k : String) (d : Int) :
    BalanceMap.get (subFrom m k d) k = subInt64 (BalanceMap.get m k) d :=
  BalanceMap.get_set_same _ _ _

theorem get_subFrom_ne (m : BalanceMap) {k a : String} (d : Int) (h : a ≠ k) :
    BalanceMap.get (subFrom m k d) a = BalanceMap.get m a :=
  BalanceMap.get_set_ne _ _ h

theorem handleWriteBlock_of_valid (u : Util) (st : Ledger) (b : Block)
    (h : isValid u st b st.NewestBlock = none) :
    handleWriteBlock u st (some b) =
      (⟨StatusCreated, Payload.text "Block accepted."⟩, addBlockToChain st b) := by
  simp [handleWriteBlock, h]

theorem handleWriteBlock_of_invalid (u : Util) (st : Ledger) (b : Block) (err : String)
    (h : isValid u st b st.NewestBlock = some err) :
    handleWriteBlock u st (some b) =
      (⟨StatusBadRequest, Payload.text ("Invalid block. " ++ err)⟩, st) := by
  simp [handleWriteBlock, h]

theorem firstFailure_eq_none (rs : List Rule) :
    firstFailure rs = none ↔ ∀ r ∈ rs, r.holds = true := by
  induction rs with
  | nil => simp [firstFailure]
  | cons r rs ih =>
    by_cases hr : r.holds = true
    · simp [firstFailure, hr, ih]
    · simp [firstFailure, hr]

theorem firstFailure_append_of_holds (rs ts us : List Rule)
    (h : ∀ r ∈ ts, r.holds = true) :
    firstFailure (rs ++ ts ++ us) = firstFailure (rs ++ us) := by
  induction rs with
  | nil =>
    induction ts with
    | nil => simp
    | cons t ts ih =>
      have ht : t.holds = true := h t (List.mem_cons_self _ _)
      have := ih (fun r hr => h r (List.mem_cons_of_mem _ hr))
      simpa [firstFailure, ht] using this
  | cons r rs ih =>
    by_cases hr : r.holds = true
    · simpa [firstFailure, hr] using ih
    · simp [firstFailure, hr]

theorem isValid_eq_firstFailure (u : Util) (st : Ledger) (candidate head : Block) :
    isValid u st candidate head = firstFailure (specRules u st candidate head) := by
  unfold isValid specRules linkRules sizeRules txRules blockDataLimit txDataLimit
  by_cases h1 : candidate.Tx.Amount < 0
  · simp [firstFailure, h1]
  by_cases h2 : addInt64 head.Index 1 = candidate.Index
  swap
  · simp [firstFailure, h1, h2, Ne.symm h2, eq_comm]
  by_cases h3 : head.Hash = candidate.PrevHash
  swap
  · simp [firstFailure, h1, h2, h3, Ne.symm h3, eq_comm]
  by_cases h4 : u.CalculateHash candidate = candidate.Hash
  swap
  · simp [firstFailure, h1, h2.symm, h3.symm, h4]
  by_cases h5 : u.IsHashSolution candidate.Hash st.Difficulty = true
  swap
  · simp [firstFailure, h1, h2.symm, h3.symm, h4, h5]
  by_cases h6 : len candidate.Data > 1000 * 250
  · have h6n : ¬ len candidate.Data ≤ 250000 := by omega
    simp [firstFailure, h1, h2.symm, h3.symm, h4, h5, h6, h6n]
  by_cases h7 : len candidate.Tx.Data > 1000 * 250
  · have h6' : len candidate.Data ≤ 250000 := by omega
    have h7n : ¬ len candidate.Tx.Data ≤ 250000 := by omega
    simp [firstFailure, h1, h2.symm, h3.symm, h4, h5, h6, h6', h7, h7n]
  have h6' : len candidate.Data ≤ 250000 := by omega
  have h7' : len candidate.Tx.Data ≤ 250000 := by omega
  by_cases h8 : candidate.Tx.Amount > 0
  swap
  · simp [firstFailure, h1, h2.symm, h3.symm, h4, h5, h6, h6', h7, h7', h8]
  by_cases h8a : u.DuckToAddress candidate.Tx.PubKey = candidate.Tx.Sender
  swap
  · simp [firstFailure, h1, h2.symm, h3.symm, h4, h5, h6, h6', h7, h7', h8, h8a]
  rcases hsig : u.CheckSignature candidate.Tx.Signature candidate.Tx.PubKey candidate.Hash
    with ⟨ok, err⟩
  cases ok
  · cases err <;>
      simp [firstFailure, h1, h2.symm, h3.symm, h4, h5, h6, h6', h7, h7', h8, h8a, hsig]
  · by_cases hb : BalanceMap.get st.Balances candidate.Tx.Sender < candidate.Tx.Amount
    · have hb' : ¬ candidate.Tx.Amount ≤ BalanceMap.get st.Balances candidate.Tx.Sender := by
        omega
      simp [firstFailure, h1, h2.symm, h3.symm, h4, h5, h6, h6', h7, h7', h8, h8a, hsig, hb, hb']
    · have hb' : candidate.Tx.Amount ≤ BalanceMap.get st.Balances candidate.Tx.Sender := by
        omega
      simp [firstFailure, h1, h2.symm, h3.symm, h4, h5, h6, h6', h7, h7', h8, h8a, hsig, hb, hb']

theorem rulesHold_iff (u : Util) (st : Ledger) (candidate head : Block) :
    RulesHold u st candidate head ↔ ∀ r ∈ specRules u st candidate head, r.holds = true := by
  simp only [RulesHold, specRules, linkRules, sizeRules, txRules, List.cons_append,
    List.nil_append, List.forall_mem_cons, List.mem_singleton, forall_eq, decide_eq_true_eq,
    List.not_mem_nil, IsEmpty.forall_iff, implies_true, and_true]
  constructor
  · rintro ⟨h1, h2, h3, h4, h5, h6, h7, h8⟩
    exact ⟨by omega, h2, h3, h4, h5, h6, h7, fun h => (h8 h).1, fun h => (h8 h).2.1,
      fun h => (h8 h).2.2⟩
  · rintro ⟨h1, h2, h3, h4, h5, h6, h7, h8, h9, h10⟩
    exact ⟨by omega, h2, h3, h4, h5, h6, h7, fun h => ⟨h8 h, h9 h, h10 h⟩⟩

theorem isValid_eq_none_iff (u : Util) (st : Ledger) (candidate head : Block) :
    isValid u st candidate head = none ↔ RulesHold u st candidate head := by
  rw [isValid_eq_firstFailure, firstFailure_eq_none, rulesHold_iff]

/-! ## The validator -/

/-- C1: `isValid` returns the reason of the first rule of the specification that fails,
in the order amount, index, previous hash, hash, proof of work, size of the data, size
of the transaction data, and for a positive amount address, signature, balance; it
returns no error exactly when all the rules hold.  A block with index 5 on a head with
index 0 is always rejected, with "Index should be 1" as soon as its amount is not
negative, whatever later rules it breaks.  When the two data fields have exactly
250000 bytes the verdict is that of the other rules. -/
theorem isValid_first_failing_rule (u : Util) (st : Ledger) (candidate head : Block) :
    isValid u st candidate head = firstFailure (specRules u st candidate head) ∧
    (isValid u st candidate head = none ↔ RulesHold u st candidate head) ∧
    (candidate.Index = 5 → head.Index = 0 →
      isValid u st candidate head ≠ none ∧
      (0 ≤ candidate.Tx.Amount → isValid u st candidate head = some "Index should be 1")) ∧
    (len candidate.Data = 250000 → len candidate.Tx.Data = 250000 →
      isValid u st candidate head =
        firstFailure (linkRules u st candidate head ++ txRules u st candidate)) := by
  refine ⟨isValid_eq_firstFailure u st candidate head, ?_, ?_, ?_⟩
  · exact isValid_eq_none_iff u st candidate head
  · intro hc hh
    have hne : addInt64 head.Index 1 ≠ candidate.Index := by
      rw [hc, hh]; decide
    have hfmt : "Index should be " ++ FormatInt (addInt64 head.Index 1) = "Index should be 1" := by
      rw [hh]; decide
    constructor
    · unfold isValid
      by_cases h1 : candidate.Tx.Amount < 0
      · simp [h1]
      · simp [h1, hne]
    · intro h0
      have h1 : ¬ candidate.Tx.Amount < 0 := by omega
      unfold isValid
      simp [h1, hne, hfmt]
  · intro h6 h7
    rw [isValid_eq_firstFailure, specRules]
    apply firstFailure_append_of_holds
    intro r hr
    simp only [sizeRules, List.mem_cons, List.mem_singleton, List.not_mem_nil, or_false] at hr
    rcases hr with rfl | rfl
    · simp [h6]
    · simp [h7]

/-- The validator rejects the block with index 5 of the examples on a head with index 0,
naming the index 1. -/
theorem isValid_first_failing_rule_witness :
    isValid Sample.util Sample.ledger Sample.block5 Sample.head0 = some "Index should be 1" :=
  ((isValid_first_failing_rule Sample.util Sample.ledger Sample.block5 Sample.head0).2.2.1
    (by decide) (by decide)).2 (by decide)

/-! ## Block submission -/

/-- C2: on an accepted transaction block whose solver, sender and receiver are pairwise
distinct, the code leaves the balance of the sender as it was, takes the amount from
the balance of the solver, and adds it to the balance of the receiver; the response is
201.  The claim has the sender pay and the solver unchanged. -/
theorem transfer_debits_solver (u : Util) (st : Ledger) (b : Block)
    (hvalid : isValid u st b st.NewestBlock = none) (hamount : b.Tx.Amount > 0)
    (h1 : b.Solver ≠ b.Tx.Sender) (h2 : b.Solver ≠ b.Tx.Receiver)
    (h3 : b.Tx.Sender ≠ b.Tx.Receiver) :
    (handleWriteBlock u st (some b)).1.code = 201 ∧
    BalanceMap.get (handleWriteBlock u st (some b)).2.Balances b.Tx.Sender =
      BalanceMap.get st.Balances b.Tx.Sender ∧
    BalanceMap.get (handleWriteBlock u st (some b)).2.Balances b.Solver =
      subInt64 (BalanceMap.get st.Balances b.Solver) b.Tx.Amount ∧
    BalanceMap.get (handleWriteBlock u st (some b)).2.Balances b.Tx.Receiver =
      addInt64 (BalanceMap.get st.Balances b.Tx.Receiver) b.Tx.Amount := by
  rw [handleWriteBlock_of_valid u st b hvalid]
  have hbal : (addBlockToChain st b).Balances =
      addTo (subFrom (subFrom (addTo st.Balances b.Solver Reward) b.Solver Reward) b.Solver
        b.Tx.Amount) b.Tx.Receiver b.Tx.Amount := by
    simp [addBlockToChain, hamount]
  refine ⟨rfl, ?_, ?_, ?_⟩ <;>
    (show BalanceMap.get (addBlockToChain st b).Balances _ = _) <;> rw [hbal]
  · rw [get_addTo_ne _ _ h3, get_subFrom_ne _ _ (Ne.symm h1), get_subFrom_ne _ _ (Ne.symm h1),
      get_addTo_ne _ _ (Ne.symm h1)]
  · rw [get_addTo_ne _ _ h2, get_subFrom_same, get_subFrom_same, get_addTo_same,
      subInt64_subInt64_addInt64]
  · rw [get_addTo_same, get_subFrom_ne _ _ (Ne.symm h2), get_subFrom_ne _ _ (Ne.symm h2),
      get_addTo_ne _ _ (Ne.symm h2)]

/-- The transfer of the examples: the sender holds 10000000 and sends 2000000; after the
block is accepted the sender still holds 10000000, the solver holds -2000000 and the
receiver 2000000. -/
theorem transfer_debits_solver_witness :
    isValid Sample.util Sample.ledger Sample.transferBlock Sample.ledger.NewestBlock = none ∧
    BalanceMap.get Sample.ledger.Balances "@alice" = 10000000 ∧
    BalanceMap.get
      (handleWriteBlock Sample.util Sample.ledger (some Sample.transferBlock)).2.Balances
      "@alice" = 10000000 ∧
    BalanceMap.get
      (handleWriteBlock Sample.util Sample.ledger (some Sample.transferBlock)).2.Balances
      "miner" = -2000000 ∧
    BalanceMap.get
      (handleWriteBlock Sample.util Sample.ledger (some Sample.transferBlock)).2.Balances
      "@bob" = 2000000 :=
  have h := transfer_debits_solver Sample.util Sample.ledger Sample.transferBlock
    (by decide) (by decide) (by decide) (by decide) (by decide)
  ⟨by decide, by decide, h.2.1.trans (by decide), h.2.2.1.trans (by decide),
    h.2.2.2.trans (by decide)⟩

/-- C3, amended: on an accepted block without transaction the response is 201, the head becomes
the block, the balance of the solver becomes its previous balance plus `Reward` in
`int64` arithmetic, which is the exact sum whenever that sum is an `int64`, and
`Reward` is 1000000; every other address keeps its balance, an address other than the
solver that was absent stays absent, and an absent address reads as 0. -/
theorem reward_block_credits_solver (u : Util) (st : Ledger) (b : Block)
    (hvalid : isValid u st b st.NewestBlock = none) (hamount : b.Tx.Amount = 0) :
    (handleWriteBlock u st (some b)).1.code = 201 ∧
    (handleWriteBlock u st (some b)).2.NewestBlock = b ∧
    BalanceMap.get (handleWriteBlock u st (some b)).2.Balances b.Solver =
      addInt64 (BalanceMap.get st.Balances b.Solver) Reward ∧
    (isInt64 (BalanceMap.get st.Balances b.Solver + Reward) →
      BalanceMap.get (handleWriteBlock u st (some b)).2.Balances b.Solver =
        BalanceMap.get st.Balances b.Solver + 1000000) ∧
    (∀ a, a ≠ b.Solver →
      BalanceMap.get (handleWriteBlock u st (some b)).2.Balances a =
        BalanceMap.get st.Balances a ∧
      (a ∉ BalanceMap.keys st.Balances →
        a ∉ BalanceMap.keys (handleWriteBlock u st (some b)).2.Balances ∧
        BalanceMap.get (handleWriteBlock u st (some b)).2.Balances a = 0)) := by
  rw [handleWriteBlock_of_valid u st b hvalid]
  have hnot : ¬ b.Tx.Amount > 0 := by omega
  have hbal : (addBlockToChain st b).Balances = addTo st.Balances b.Solver Reward := by
    simp [addBlockToChain, hnot]
  refine ⟨rfl, rfl, ?_, ?_, ?_⟩
  · show BalanceMap.get (addBlockToChain st b).Balances b.Solver = _
    rw [hbal, get_addTo_same]
  · intro hr
    show BalanceMap.get (addBlockToChain st b).Balances b.Solver = _
    rw [hbal, get_addTo_same, addInt64, wrapInt64_of_isInt64 hr]
    rfl
  · intro a ha
    show BalanceMap.get (addBlockToChain st b).Balances a = _ ∧
      (_ → a ∉ BalanceMap.keys (addBlockToChain st b).Balances ∧
        BalanceMap.get (addBlockToChain st b).Balances a = 0)
    rw [hbal]
    refine ⟨get_addTo_ne _ _ ha, fun hmem => ⟨?_, ?_⟩⟩
    · intro hin
      rcases (BalanceMap.mem_keys_set _ _ _ _).1 hin with h | h
      · exact ha h
      · exact hmem h
    · rw [get_addTo_ne _ _ ha]
      exact BalanceMap.get_eq_zero_of_not_mem _ hmem

/-- The block without transaction of the examples: the solver, absent before, holds
1000000 afterwards, and the one other account is unchanged. -/
theorem reward_block_credits_solver_witness :
    isValid Sample.util Sample.ledger Sample.rewardBlock Sample.ledger.NewestBlock = none ∧
    BalanceMap.get Sample.ledger.Balances "miner" = 0 ∧
    BalanceMap.get
      (handleWriteBlock Sample.util Sample.ledger (some Sample.rewardBlock)).2.Balances
      "miner" = 1000000 ∧
    (handleWriteBlock Sample.util Sample.ledger (some Sample.rewardBlock)).2.NewestBlock =
      Sample.rewardBlock :=
  have h := reward_block_credits_solver Sample.util Sample.ledger Sample.rewardBlock
    (by decide) (by decide)
  ⟨by decide, by decide, h.2.2.2.1 (by decide), h.2.1⟩

/-- C4: when `isValid` rejects the submitted block, `handleWriteBlock` answers 400 with
"Invalid block. " followed by the reason of the validator, and the state afterwards is
the state before: the same head, the same balance map, the same difficulty. -/
theorem rejected_block_leaves_state (u : Util) (st : Ledger) (b : Block) (err : String)
    (hinvalid : isValid u st b st.NewestBlock = some err) :
    (handleWriteBlock u st (some b)).1 = ⟨400, Payload.text ("Invalid block. " ++ err)⟩ ∧
    (handleWriteBlock u st (some b)).2 = st ∧
    (handleWriteBlock u st (some b)).2.NewestBlock = st.NewestBlock ∧
    (handleWriteBlock u st (some b)).2.Balances = st.Balances := by
  have h := handleWriteBlock_of_invalid u st b err hinvalid
  refine ⟨?_, ?_, ?_, ?_⟩ <;> rw [h]
  rfl

/-- The block with index 5 of the examples is answered 400 with the reason of the index
rule, and the ledger of the examples is unchanged. -/
theorem rejected_block_leaves_state_witness :
    (handleWriteBlock Sample.util Sample.ledger (some Sample.block5)).1 =
      ⟨400, Payload.text "Invalid block. Index should be 1"⟩ ∧
    (handleWriteBlock Sample.util Sample.ledger (some Sample.block5)).2 = Sample.ledger :=
  have h := rejected_block_leaves_state Sample.util Sample.ledger Sample.block5
    "Index should be 1" (by decide)
  ⟨h.1.trans (by decide), h.2.1⟩

/-! ## Chain linkage -/

theorem submitAll_cons_valid (u : Util) (st : Ledger) (b : Block) (bs : List Block)
    (h : isValid u st b st.NewestBlock = none) :
    submitAll u st (b :: bs) =
      ((submitAll u (addBlockToChain st b) bs).1, b :: (submitAll u (addBlockToChain st b) bs).2) := by
  simp [submitAll, handleWriteBlock_of_valid u st b h, StatusCreated]

theorem submitAll_cons_invalid (u : Util) (st : Ledger) (b : Block) (bs : List Block)
    (err : String) (h : isValid u st b st.NewestBlock = some err) :
    submitAll u st (b :: bs) = submitAll u st bs := by
  simp [submitAll, handleWriteBlock_of_invalid u st b err h, StatusCreated, StatusBadRequest]

theorem submitAll_chain (u : Util) (bs : List Block) :
    ∀ st : Ledger, List.Chain (Linked u) st.NewestBlock (submitAll u st bs).2 ∧
      (st.NewestBlock :: (submitAll u st bs).2).getLast? =
        some (submitAll u st bs).1.NewestBlock := by
  induction bs with
  | nil => intro st; simp [submitAll]
  | cons b bs ih =>
    intro st
    cases hv : isValid u st b st.NewestBlock with
    | none =>
      rw [submitAll_cons_valid u st b bs hv]
      have hr := (isValid_eq_none_iff u st b st.NewestBlock).1 hv
      obtain ⟨hc, hl⟩ := ih (addBlockToChain st b)
      have hhead : (addBlockToChain st b).NewestBlock = b := rfl
      rw [hhead] at hc hl
      refine ⟨List.Chain.cons ⟨hr.2.1, hr.2.2.1, hr.2.2.2.1⟩ hc, ?_⟩
      rw [List.getLast?_cons_cons]
      exact hl
    | some err =>
      rw [submitAll_cons_invalid u st b bs err hv]
      exact ih st

theorem chain_index (u : Util) (l : List Block) :
    ∀ (h : Block) (k : Int), h.Index = wrapInt64 k → List.Chain (Linked u) h l →
      ∀ (i : Nat) (a : Block), (h :: l)[i]? = some a → a.Index = wrapInt64 (k + i) := by
  induction l with
  | nil =>
    intro h k hk _ i a hi
    cases i with
    | zero => simp at hi; subst hi; simpa using hk
    | succ j => simp at hi
  | cons b l ih =>
    intro h k hk hc i a hi
    cases i with
    | zero => simp at hi; subst hi; simpa using hk
    | succ j =>
      rw [List.chain_cons] at hc
      have hb : b.Index = wrapInt64 (k + 1) := by
        rw [hc.1.1, hk]
        unfold addInt64 wrapInt64
        omega
      have := ih b (k + 1) hb hc.2 j a (by simpa using hi)
      rw [this]
      push_cast
      congr 1
      omega

theorem chain_step (u : Util) (l : List Block) :
    ∀ (h : Block), List.Chain (Linked u) h l →
      ∀ (i : Nat) (a b : Block), (h :: l)[i]? = some a → (h :: l)[i + 1]? = some b →
        Linked u a b := by
  induction l with
  | nil => intro h _ i a b _ hb; simp at hb
  | cons c l ih =>
    intro h hc i a b ha hb
    rw [List.chain_cons] at hc
    cases i with
    | zero =>
      simp at ha hb
      subst ha; subst hb
      exact hc.1
    | succ j => exact ih c hc.2 j a b (by simpa using ha) (by simpa using hb)

theorem chain_hash (u : Util) (l : List Block) :
    ∀ (h : Block), u.CalculateHash h = h.Hash → List.Chain (Linked u) h l →
      ∀ (i : Nat) (a : Block), (h :: l)[i]? = some a → u.CalculateHash a = a.Hash := by
  induction l with
  | nil =>
    intro h hh _ i a hi
    cases i with
    | zero => simp at hi; subst hi; exact hh
    | succ j => simp at hi
  | cons c l ih =>
    intro h hh hc i a hi
    rw [List.chain_cons] at hc
    cases i with
    | zero => simp at hi; subst hi; exact hh
    | succ j => exact ih c hc.1.2.2 hc.2 j a (by simpa using hi)

theorem setupNewBlockchain_head (u : Util) (t : Int) (io : FileOutcome) (st : Ledger)
    (h1 : io.create = none) (h2 : io.write = none) (h3 : io.close = none) :
    (setupNewBlockchain u t io st).2 = { st with NewestBlock := genesisBlock u t } := by
  unfold setupNewBlockchain
  rw [h1, h2, h3]
  cases io.writeNewest <;> cases io.writeBalances <;> rfl

theorem setupNewBlockchain_ok (u : Util) (t : Int) (io : FileOutcome) (st : Ledger)
    (h : (setupNewBlockchain u t io st).1 = none) :
    io.create = none ∧ io.write = none ∧ io.close = none := by
  unfold setupNewBlockchain at h
  cases h1 : io.create <;> cases h2 : io.write <;> cases h3 : io.close <;>
    simp [h1, h2, h3] at h ⊢

theorem genesisBlock_hash (u : Util) (t : Int) (hexcl : HashExcludesHash u) :
    u.CalculateHash (genesisBlock u t) = (genesisBlock u t).Hash :=
  hexcl (genesisLiteral t) (u.CalculateHash (genesisLiteral t))

/-- C5: the chain `B0 .. Bn` made of the genesis block that `setupNewBlockchain` installs
and of the blocks that `handleWriteBlock` then accepts, each on the head left by the one
before, is linked.  `B0` is the genesis block; `Bi.Index` is `i` as an `int64`, that is
`i` itself below `2^63`; `Bi.Hash` is `CalculateHash(Bi)`; `B(i+1).PrevHash` is
`Bi.Hash` and `B(i+1).Index` is `Bi.Index + 1`; and the head after the submissions is
`Bn`.  The hash function is taken to leave the field `Hash` out of its input. -/
theorem chain_linkage (u : Util) (t : Int) (io : FileOutcome) (st0 : Ledger)
    (bs : List Block) (hexcl : HashExcludesHash u)
    (hsetup : (setupNewBlockchain u t io st0).1 = none) :
    (acceptedChain u (setupNewBlockchain u t io st0).2 bs)[0]? = some (genesisBlock u t) ∧
    (acceptedChain u (setupNewBlockchain u t io st0).2 bs).getLast? =
      some (submitAll u (setupNewBlockchain u t io st0).2 bs).1.NewestBlock ∧
    ∀ (i : Nat) (a : Block),
      (acceptedChain u (setupNewBlockchain u t io st0).2 bs)[i]? = some a →
        a.Index = wrapInt64 i ∧ (i < 2 ^ 63 → a.Index = i) ∧
        u.CalculateHash a = a.Hash ∧
        ∀ b : Block, (acceptedChain u (setupNewBlockchain u t io st0).2 bs)[i + 1]? = some b →
          b.PrevHash = a.Hash ∧ b.Index = addInt64 a.Index 1 := by
  obtain ⟨h1, h2, h3⟩ := setupNewBlockchain_ok u t io st0 hsetup
  have hst := setupNewBlockchain_head u t io st0 h1 h2 h3
  have hhead : (setupNewBlockchain u t io st0).2.NewestBlock = genesisBlock u t := by
    rw [hst]
  obtain ⟨hc, hl⟩ := submitAll_chain u bs (setupNewBlockchain u t io st0).2
  have hg := genesisBlock_hash u t hexcl
  rw [← hhead] at hg
  have hidx0 : (setupNewBlockchain u t io st0).2.NewestBlock.Index = wrapInt64 0 := by
    rw [hhead]; rfl
  refine ⟨?_, hl, ?_⟩
  · simp [acceptedChain, hhead]
  · intro i a hi
    have hia := chain_index u _ _ 0 hidx0 hc i a hi
    rw [zero_add] at hia
    refine ⟨hia, ?_, chain_hash u _ _ hg hc i a hi, ?_⟩
    · intro hlt
      rw [hia]
      unfold wrapInt64
      omega
    · intro b hb
      have := chain_step u _ _ hc i a b hi hb
      exact ⟨this.2.1, this.1⟩

/-- The stand-in hash leaves the field `Hash` out, and on its genesis block the
submissions `block5`, `block1`, `block2` build the chain genesis, `block1`, `block2`:
the block at position 2 has index 2 and is the head at the end. -/
theorem chain_linkage_witness :
    HashExcludesHash Sample.util ∧
    acceptedChain Sample.util
      (setupNewBlockchain Sample.util 0 FileOutcome.ok Ledger.init).2
      [Sample.block5, Sample.block1, Sample.block2] =
      [genesisBlock Sample.util 0, Sample.block1, Sample.block2] ∧
    Sample.block2.Index = 2 ∧
    Sample.block2.PrevHash = Sample.block1.Hash :=
  have hexcl : HashExcludesHash Sample.util := fun _ _ => rfl
  have h := chain_linkage Sample.util 0 FileOutcome.ok Ledger.init
    [Sample.block5, Sample.block1, Sample.block2] hexcl (by decide)
  ⟨hexcl, by decide, (h.2.2 2 Sample.block2 (by decide)).2.1 (by decide),
    ((h.2.2 1 Sample.block1 (by decide)).2.2.2 Sample.block2 (by decide)).1⟩

/-! ## Balances below zero -/

/-- C6: in the ledger of the examples every balance is at least 0 and the solver
`"miner"` holds 0; the validator accepts the transfer of 2000000 from `"@alice"`, whose
balance it checked, and `handleWriteBlock` answers 201; afterwards the balance of
`"miner"`, the account that was debited, is -2000000.  The claim has every balance stay
at least 0. -/
theorem accepted_transfer_makes_solver_negative :
    (∀ a, 0 ≤ BalanceMap.get Sample.ledger.Balances a) ∧
    BalanceMap.get Sample.ledger.Balances "miner" = 0 ∧
    Sample.transferBlock.Solver = "miner" ∧
    Sample.transferBlock.Tx.Sender = "@alice" ∧
    Sample.transferBlock.Tx.Amount = 2000000 ∧
    isValid Sample.util Sample.ledger Sample.transferBlock Sample.ledger.NewestBlock = none ∧
    (handleWriteBlock Sample.util Sample.ledger (some Sample.transferBlock)).1.code = 201 ∧
    BalanceMap.get
      (handleWriteBlock Sample.util Sample.ledger (some Sample.transferBlock)).2.Balances
      "miner" = -2000000 ∧
    BalanceMap.get
      (handleWriteBlock Sample.util Sample.ledger (some Sample.transferBlock)).2.Balances
      "@alice" = 10000000 := by
  refine ⟨?_, by decide, by decide, by decide, by decide, by decide, by decide, by decide,
    by decide⟩
  intro a
  by_cases h : "@alice" = a
  · simp [Sample.ledger, BalanceMap.get, h]
  · simp [Sample.ledger, BalanceMap.get, h]

/-! ## The difficulty on the wire -/

/-- C7: the target that the ledger node holds is `16^59`; the text that its handler
publishes is the digit 1 followed by 59 zeros, decimal digits only; on that text
`strconv.ParseInt(text, 10, 64)` returns the largest `int64` with a range error, and
`loadDifficultyAndURL` returns this error and leaves the difficulty of the miner as it
was.  The claim has the parser accept the text and yield the target. -/
theorem difficulty_text_out_of_range :
    Ledger.init.Difficulty = 16 ^ 59 ∧
    handleDifficulty Ledger.init =
      "100000000000000000000000000000000000000000000000000000000000" ∧
    (handleDifficulty Ledger.init).data.all Char.isDigit = true ∧
    Snode.ParseInt (handleDifficulty Ledger.init) =
      (9223372036854775807, some Snode.NumError.ErrRange) ∧
    Snode.loadDifficultyAndURL Sample.env Sample.globals =
      (some (Snode.LoadError.parse Snode.NumError.ErrRange),
        { URL := "http://ledger:8080", Difficulty := 0 }) := by
  refine ⟨by decide, by decide, by decide, by decide, by decide⟩

/-! ## The genesis block -/

/-- C8, as the claim states it: the transaction of the genesis block that
`setupNewBlockchain` installs does not have empty data. -/
theorem genesis_tx_data_not_empty :
    ¬ ((setupNewBlockchain Sample.util 0 FileOutcome.ok Ledger.init).2.NewestBlock.Tx.Data
      = "") := by
  decide

/-- C8, amended: once the block log is created, written and closed, the head is the
genesis block: index 0, previous hash the duckling, amount 0, sender, receiver,
public key and signature empty, transaction data "Genesis transaction", and hash the
hash computed on the block literal, which is `CalculateHash` of the genesis block when
the hash function leaves the field `Hash` out.  `isValid` is not asked: on the initial
head it rejects the genesis block, naming the index 1.  The balance map is the one
before, so the empty one on the initial state, whatever the file operations do. -/
theorem genesis_block_installed (u : Util) (t : Int) (io : FileOutcome) (st : Ledger)
    (h1 : io.create = none) (h2 : io.write = none) (h3 : io.close = none) :
    (setupNewBlockchain u t io st).2.NewestBlock = genesisBlock u t ∧
    (genesisBlock u t).Index = 0 ∧
    (genesisBlock u t).PrevHash = "🐤" ∧
    (genesisBlock u t).Tx.Amount = 0 ∧
    (genesisBlock u t).Tx.Data = "Genesis transaction" ∧
    (genesisBlock u t).Tx.Sender = "" ∧
    (genesisBlock u t).Tx.Receiver = "" ∧
    (genesisBlock u t).Tx.PubKey = "" ∧
    (genesisBlock u t).Tx.Signature = "" ∧
    (genesisBlock u t).Hash = u.CalculateHash (genesisLiteral t) ∧
    (HashExcludesHash u → (genesisBlock u t).Hash = u.CalculateHash (genesisBlock u t)) ∧
    isValid u Ledger.init (genesisBlock u t) Ledger.init.NewestBlock =
      some "Index should be 1" ∧
    (setupNewBlockchain u t io st).2.Balances = st.Balances ∧
    (setupNewBlockchain u t io Ledger.init).2.Balances = BalanceMap.empty := by
  have hst := setupNewBlockchain_head u t io st h1 h2 h3
  have hinit := setupNewBlockchain_head u t io Ledger.init h1 h2 h3
  refine ⟨by rw [hst], rfl, rfl, rfl, rfl, rfl, rfl, rfl, rfl, rfl,
    fun hexcl => (genesisBlock_hash u t hexcl).symm, ?_, by rw [hst], by rw [hinit]; rfl⟩
  have hne : addInt64 Ledger.init.NewestBlock.Index 1 ≠ (genesisBlock u t).Index := by
    show addInt64 0 1 ≠ 0
    decide
  have ha : ¬ (genesisBlock u t).Tx.Amount < 0 := by
    show ¬ (0 : Int) < 0
    decide
  have hfmt : "Index should be " ++ FormatInt (addInt64 Ledger.init.NewestBlock.Index 1) =
      "Index should be 1" := by decide
  unfold isValid
  simp only [ha, hne, if_false, if_true, ne_eq, not_false_eq_true, hfmt]

/-- The genesis block of the stand-in at time 0 becomes the head of the initial state,
with its transaction data and an empty balance map. -/
theorem genesis_block_installed_witness :
    (setupNewBlockchain Sample.util 0 FileOutcome.ok Ledger.init).2.NewestBlock =
      genesisBlock Sample.util 0 ∧
    (genesisBlock Sample.util 0).Tx.Data = "Genesis transaction" ∧
    (setupNewBlockchain Sample.util 0 FileOutcome.ok Ledger.init).2.Balances =
      BalanceMap.empty :=
  have h := genesis_block_installed Sample.util 0 FileOutcome.ok Ledger.init rfl rfl rfl
  ⟨h.1, h.2.2.2.2.1, h.2.2.2.2.2.2.2.2.2.2.2.2.2⟩

/-! ## Total supply -/

theorem total_addTo (m : BalanceMap) (k : String) (d : Int) :
    BalanceMap.total (addTo m k d) =
      BalanceMap.total m - BalanceMap.get m k + addInt64 (BalanceMap.get m k) d :=
  BalanceMap.total_set _ _ _

theorem total_subFrom (m : BalanceMap) (k : String) (d : Int) :
    BalanceMap.total (subFrom m k d) =
      BalanceMap.total m - BalanceMap.get m k + subInt64 (BalanceMap.get m k) d :=
  BalanceMap.total_set _ _ _

theorem addBlockToChain_balances_of_pos (st : Ledger) (b : Block) (h : b.Tx.Amount > 0) :
    (addBlockToChain st b).Balances =
      addTo (subFrom (subFrom (addTo st.Balances b.Solver Reward) b.Solver Reward) b.Solver
        b.Tx.Amount) b.Tx.Receiver b.Tx.Amount := by
  simp [addBlockToChain, h]

theorem addBlockToChain_balances_of_not_pos (st : Ledger) (b : Block)
    (h : ¬ b.Tx.Amount > 0) :
    (addBlockToChain st b).Balances = addTo st.Balances b.Solver Reward := by
  simp [addBlockToChain, h]

theorem get_after_debit (m : BalanceMap) (s r : String) (a : Int) :
    BalanceMap.get (subFrom (subFrom (addTo m s Reward) s Reward) s a) r =
      BalanceMap.get (subFrom m s a) r := by
  by_cases h : r = s
  · subst h
    rw [get_subFrom_same, get_subFrom_same, get_addTo_same, get_subFrom_same,
      subInt64_subInt64_addInt64]
  · rw [get_subFrom_ne _ _ h, get_subFrom_ne _ _ h, get_addTo_ne _ _ h, get_subFrom_ne _ _ h]

theorem total_after_debit (m : BalanceMap) (s : String) (a : Int) :
    BalanceMap.total (subFrom (subFrom (addTo m s Reward) s Reward) s a) =
      BalanceMap.total m - BalanceMap.get m s + subInt64 (BalanceMap.get m s) a := by
  rw [total_subFrom, total_subFrom, total_addTo, get_subFrom_same, get_addTo_same,
    subInt64_subInt64_addInt64]
  omega

/-- C11: the sum of all the balances after `addBlockToChain(b)`.  In `int64` arithmetic it
is congruent modulo `2^64` to the sum before, plus `Reward` unless the amount is
positive.  In exact integer arithmetic, that is when the balances written are the
exact integers (`UpdateExact`), it equals the sum before plus `Reward`, 1000000, when
the amount is at most 0, and equals the sum before when the amount is positive,
whether the solver, the sender and the receiver coincide or not. -/
theorem total_supply_conserved (st : Ledger) (b : Block) :
    BalanceMap.total (addBlockToChain st b).Balances % 2 ^ 64 =
      (BalanceMap.total st.Balances + (if b.Tx.Amount > 0 then 0 else Reward)) % 2 ^ 64 ∧
    (UpdateExact st b →
      (b.Tx.Amount ≤ 0 →
        BalanceMap.total (addBlockToChain st b).Balances =
          BalanceMap.total st.Balances + 1000000) ∧
      (b.Tx.Amount > 0 →
        BalanceMap.total (addBlockToChain st b).Balances = BalanceMap.total st.Balances)) := by
  by_cases hpos : b.Tx.Amount > 0
  · have ht : BalanceMap.total (addBlockToChain st b).Balances =
        BalanceMap.total st.Balances - BalanceMap.get st.Balances b.Solver
          + subInt64 (BalanceMap.get st.Balances b.Solver) b.Tx.Amount
          - BalanceMap.get (subFrom st.Balances b.Solver b.Tx.Amount) b.Tx.Receiver
          + addInt64 (BalanceMap.get (subFrom st.Balances b.Solver b.Tx.Amount) b.Tx.Receiver)
              b.Tx.Amount := by
      rw [addBlockToChain_balances_of_pos st b hpos, total_addTo, get_after_debit,
        total_after_debit]
    constructor
    · rw [ht, if_pos hpos]
      unfold addInt64 subInt64 wrapInt64
      omega
    · intro hex
      unfold UpdateExact at hex
      rw [if_pos hpos] at hex
      obtain ⟨hs, hr⟩ := hex
      refine ⟨fun hle => absurd hpos (by omega), fun _ => ?_⟩
      rw [ht, subInt64, addInt64, wrapInt64_of_isInt64 hs, wrapInt64_of_isInt64 hr]
      omega
  · have ht : BalanceMap.total (addBlockToChain st b).Balances =
        BalanceMap.total st.Balances - BalanceMap.get st.Balances b.Solver
          + addInt64 (BalanceMap.get st.Balances b.Solver) Reward := by
      rw [addBlockToChain_balances_of_not_pos st b hpos, total_addTo]
    constructor
    · rw [ht, if_neg hpos]
      unfold addInt64 wrapInt64
      omega
    · intro hex
      unfold UpdateExact at hex
      rw [if_neg hpos] at hex
      refine ⟨fun _ => ?_, fun h => absurd h hpos⟩
      rw [ht, addInt64, wrapInt64_of_isInt64 hex]
      unfold Reward
      omega

/-- In the ledger of the examples the sum of the balances is 10000000; it is still
10000000 after the block in which solver, sender and receiver are the one address
`"@alice"`, and after the transfer between three distinct addresses. -/
theorem total_supply_conserved_witness :
    UpdateExact Sample.ledger Sample.selfTransferBlock ∧
    BalanceMap.total Sample.ledger.Balances = 10000000 ∧
    BalanceMap.total (addBlockToChain Sample.ledger Sample.selfTransferBlock).Balances =
      BalanceMap.total Sample.ledger.Balances ∧
    BalanceMap.total (addBlockToChain Sample.ledger Sample.transferBlock).Balances =
      BalanceMap.total Sample.ledger.Balances :=
  ⟨by decide, by decide,
    ((total_supply_conserved Sample.ledger Sample.selfTransferBlock).2 (by decide)).2
      (by decide),
    ((total_supply_conserved Sample.ledger Sample.transferBlock).2 (by decide)).2
      (by decide)⟩

/-! ## The reward at the end of the range -/

/-- C3, as the claim states it: in the ledger of the examples in which `"miner"` holds
9223372036854775807, the validator accepts the block without transaction that `"miner"`
solved; afterwards the balance of `"miner"` is -9223372036853775809, which is not the
previous balance plus 1000000. -/
theorem reward_wraps_at_max_balance :
    isValid Sample.util Sample.fullLedger Sample.rewardBlock Sample.fullLedger.NewestBlock
      = none ∧
    Sample.rewardBlock.Tx.Amount = 0 ∧
    (handleWriteBlock Sample.util Sample.fullLedger (some Sample.rewardBlock)).1.code = 201 ∧
    BalanceMap.get Sample.fullLedger.Balances Sample.rewardBlock.Solver
      = 9223372036854775807 ∧
    BalanceMap.get
      (handleWriteBlock Sample.util Sample.fullLedger (some Sample.rewardBlock)).2.Balances
      Sample.rewardBlock.Solver = -9223372036853775809 ∧
    ¬ (BalanceMap.get
        (handleWriteBlock Sample.util Sample.fullLedger (some Sample.rewardBlock)).2.Balances
        Sample.rewardBlock.Solver =
      BalanceMap.get Sample.fullLedger.Balances Sample.rewardBlock.Solver + 1000000) := by
  refine ⟨by decide, by decide, by decide, by decide, by decide, by decide⟩

/-! ## Calls that overlap -/

theorem step_step_decoded (u : Util) (s : Server) (i : Nat) (b : Block)
    (h : s.calls i = Call.decoded b) :
    Server.step u (Server.step u s i) i =
      { ledger := (handleWriteBlock u s.ledger (some b)).2
        calls := Function.update s.calls i
          (Call.responded (handleWriteBlock u s.ledger (some b)).1) } := by
  cases hv : isValid u s.ledger b s.ledger.NewestBlock with
  | none =>
    have h1 : Server.step u s i =
        { s with calls := Function.update s.calls i (Call.validated b) } := by
      simp [Server.step, h, hv]
    rw [h1, handleWriteBlock_of_valid u s.ledger b hv]
    simp [Server.step]
  | some err =>
    have h1 : Server.step u s i =
        ⟨s.ledger, Function.update s.calls i
          (Call.responded ⟨StatusBadRequest, Payload.text ("Invalid block. " ++ err)⟩)⟩ := by
      simp [Server.step, h, hv]
    rw [h1, handleWriteBlock_of_invalid u s.ledger b err hv]
    simp [Server.step]

theorem run_serialSchedule (u : Util) (bs : List Block) :
    ∀ (k : Nat) (s : Server),
      (∀ (j : Nat) (b : Block), bs[j]? = some b → s.calls (k + j) = Call.decoded b) →
      (Server.run u s (serialSchedule k bs.length)).ledger = (submitAll u s.ledger bs).1 := by
  induction bs with
  | nil => intro k s _; rfl
  | cons b bs ih =>
    intro k s h
    have h0 : s.calls k = Call.decoded b := by simpa using h 0 b (by simp)
    simp only [List.length_cons, serialSchedule, Server.run]
    rw [step_step_decoded u s k b h0, ih (k + 1)]
    · rfl
    · intro j c hj
      have hne : k + 1 + j ≠ k := by omega
      have hc := h (j + 1) c (by simpa using hj)
      show Function.update s.calls k _ (k + 1 + j) = Call.decoded c
      rw [Function.update_noteq hne, ← hc]
      congr 1
      omega

theorem requests_decoded (bs : List Block) (j : Nat) (b : Block) (h : bs[j]? = some b) :
    requests bs (0 + j) = Call.decoded b := by
  simp [requests, h]

/-- C9, as the claim states it: in the ledger of the examples two calls are under way,
for two blocks that are both valid on the head.  In the schedule in which each call runs
`isValid` before either runs `addBlockToChain`, both are validated on the same state; the
second goes on with that verdict after the first has replaced the head; both blocks are
applied and both calls answer 201.  The state at the end is that of neither sequential
order of the two submissions, each of which accepts one block only. -/
theorem overlapping_calls_not_serializable :
    (Server.run Sample.util Sample.twoCalls [0, 1]).ledger = Sample.ledger ∧
    (Server.run Sample.util Sample.twoCalls [0, 1]).calls 0
      = Call.validated Sample.rewardBlock ∧
    (Server.run Sample.util Sample.twoCalls [0, 1]).calls 1
      = Call.validated Sample.rivalBlock ∧
    (Server.run Sample.util Sample.twoCalls [0, 1, 0]).ledger.NewestBlock
      = Sample.rewardBlock ∧
    (Server.run Sample.util Sample.twoCalls [0, 1, 0]).calls 1
      = Call.validated Sample.rivalBlock ∧
    isValid Sample.util (Server.run Sample.util Sample.twoCalls [0, 1, 0]).ledger
      Sample.rivalBlock (Server.run Sample.util Sample.twoCalls [0, 1, 0]).ledger.NewestBlock
      = some "Index should be 2" ∧
    (Server.run Sample.util Sample.twoCalls [0, 1, 0, 1]).ledger =
      addBlockToChain (addBlockToChain Sample.ledger Sample.rewardBlock) Sample.rivalBlock ∧
    (Server.run Sample.util Sample.twoCalls [0, 1, 0, 1]).calls 0
      = Call.responded ⟨201, Payload.text "Block accepted."⟩ ∧
    (Server.run Sample.util Sample.twoCalls [0, 1, 0, 1]).calls 1
      = Call.responded ⟨201, Payload.text "Block accepted."⟩ ∧
    (Server.run Sample.util Sample.twoCalls [0, 1, 0, 1]).ledger ≠
      (submitAll Sample.util Sample.ledger [Sample.rewardBlock, Sample.rivalBlock]).1 ∧
    (Server.run Sample.util Sample.twoCalls [0, 1, 0, 1]).ledger ≠
      (submitAll Sample.util Sample.ledger [Sample.rivalBlock, Sample.rewardBlock]).1 := by
  refine ⟨by decide, by decide, by decide, by decide, by decide, by decide, by decide,
    by decide, by decide, by decide, by decide⟩

/-- C9, amended: `handleWriteBlock` takes no lock, and what holds is this.  When the calls
for the submissions `bs` run one after the other, the two steps of each back to back,
the state at the end is that of the submissions handled in that order by
`handleWriteBlock`.  For any call, whatever the other calls have done before: if its two
steps run with no step of another call between them, the globals and its response are
those of `handleWriteBlock` on the globals it found, and no other call is touched. -/
theorem serial_calls_are_sequential (u : Util) (st : Ledger) (bs : List Block) :
    (Server.run u ⟨st, requests bs⟩ (serialSchedule 0 bs.length)).ledger
      = (submitAll u st bs).1 ∧
    ∀ (s : Server) (i : Nat) (b : Block), s.calls i = Call.decoded b →
      (Server.step u (Server.step u s i) i).ledger
        = (handleWriteBlock u s.ledger (some b)).2 ∧
      (Server.step u (Server.step u s i) i).calls i
        = Call.responded (handleWriteBlock u s.ledger (some b)).1 ∧
      ∀ j : Nat, j ≠ i → (Server.step u (Server.step u s i) i).calls j = s.calls j := by
  constructor
  · exact run_serialSchedule u bs 0 ⟨st, requests bs⟩ (requests_decoded bs)
  · intro s i b h
    rw [step_step_decoded u s i b h]
    refine ⟨rfl, ?_, ?_⟩
    · simp
    · intro j hj
      simp [Function.update_noteq hj]

/-- The two calls of the examples run one after the other: the head at the end is the
block of the first, the one accepted in that order, and the second call, run with its
two steps together on the first state, answers 201. -/
theorem serial_calls_are_sequential_witness :
    (Server.run Sample.util Sample.twoCalls (serialSchedule 0 2)).ledger.NewestBlock
      = Sample.rewardBlock ∧
    (Server.step Sample.util (Server.step Sample.util Sample.twoCalls 1) 1).calls 1
      = Call.responded ⟨201, Payload.text "Block accepted."⟩ :=
  have h := serial_calls_are_sequential Sample.util Sample.ledger
    [Sample.rewardBlock, Sample.rivalBlock]
  ⟨(congrArg Ledger.NewestBlock h.1).trans (by decide),
    ((h.2 Sample.twoCalls 1 Sample.rivalBlock (by decide)).2.1).trans (by decide)⟩

end Lnode

/-! ## The search loop of the miner -/

namespace Snode

theorem restart_fields (a : Args) (now : Int) (oldBlock newBlock : Block) :
    (restart a now oldBlock newBlock).oldBlock = oldBlock ∧
    (restart a now oldBlock newBlock).newBlock.Index = (oldBlock.Index + 1) % 2 ^ 64 ∧
    (restart a now oldBlock newBlock).newBlock.PrevHash = oldBlock.Hash ∧
    (restart a now oldBlock newBlock).i = 0 := by
  unfold restart
  refine ⟨rfl, ?_, ?_, rfl⟩
  · by_cases h : a.tx.Amount = 0 <;> simp [h]
  · by_cases h : a.tx.Amount = 0 <;> simp [h]

theorem iterate_default_solution (u : Util) (a : Args) (target : Int) (now : Int)
    (postOk : Bool) (s : SearchState) :
    (iterate u a target none now postOk s).block.Solution = FormatInt s.i := by
  unfold iterate
  simp only
  split
  · rfl
  · split
    · split <;> rfl
    · rfl

/-- C10: in the loop of `makeBlock`, when the head `h` taken from the channel differs
from the head being mined on, the iteration ends in the state that the statements
after `Restart` build: the head mined on is `h`, the block under construction has
index `h.Index + 1` (as a `uint64`, so the exact successor unless that overflows) and
previous hash `h.Hash`, the nonce counter is 0, and the next run of the `default` case
writes the solution "0", whatever the counter was before.  When `h` equals the head
being mined on, there is no restart: the head and the block under construction are
kept and the counter goes on by one. -/
theorem drained_head_restarts_search (u : Util) (a : Args) (target : Int) (now : Int)
    (postOk : Bool) (s : SearchState) (h : Block) :
    (h ≠ s.oldBlock →
      iterate u a target (some h) now postOk s =
        Outcome.searching (restart a now h s.newBlock) ∧
      (restart a now h s.newBlock).oldBlock = h ∧
      (restart a now h s.newBlock).newBlock.Index = (h.Index + 1) % 2 ^ 64 ∧
      (h.Index + 1 < 2 ^ 64 → (restart a now h s.newBlock).newBlock.Index = h.Index + 1) ∧
      (restart a now h s.newBlock).newBlock.PrevHash = h.Hash ∧
      (restart a now h s.newBlock).i = 0 ∧
      nextSolution (restart a now h s.newBlock) = "0" ∧
      ∀ (now2 : Int) (postOk2 : Bool),
        (iterate u a target none now2 postOk2 (restart a now h s.newBlock)).block.Solution
          = "0") ∧
    (h = s.oldBlock →
      iterate u a target (some h) now postOk s =
        Outcome.searching { oldBlock := s.oldBlock, newBlock := s.newBlock, i := addInt64 s.i 1 }) := by
  obtain ⟨r1, r2, r3, r4⟩ := restart_fields a now h s.newBlock
  constructor
  · intro hne
    have hne2 : s.oldBlock ≠ h := Ne.symm hne
    refine ⟨by simp [iterate, hne2], r1, r2, ?_, r3, r4, ?_, ?_⟩
    · intro hlt
      rw [r2, Nat.mod_eq_of_lt hlt]
    · rw [nextSolution, r4]
      decide
    · intro now2 postOk2
      rw [iterate_default_solution, r4]
      decide
  · intro heq
    simp [iterate, heq]

/-- The search of the examples mines on the head with index 6 and has reached the nonce
41; the head with index 7 arrives: the search restarts on it with index 8, previous hash
`"h7"` and the counter at 0. -/
theorem drained_head_restarts_search_witness :
    Sample.searching41.i = 41 ∧
    iterate Sample.minerUtil Sample.minerArgs 0 (some Sample.head7) 2000 true
      Sample.searching41 =
      Outcome.searching (restart Sample.minerArgs 2000 Sample.head7 Sample.searching41.newBlock) ∧
    (restart Sample.minerArgs 2000 Sample.head7 Sample.searching41.newBlock).newBlock.Index
      = 8 ∧
    (restart Sample.minerArgs 2000 Sample.head7 Sample.searching41.newBlock).newBlock.PrevHash
      = "h7" ∧
    (restart Sample.minerArgs 2000 Sample.head7 Sample.searching41.newBlock).i = 0 :=
  have h := (drained_head_restarts_search Sample.minerUtil Sample.minerArgs 0 2000 true
    Sample.searching41 Sample.head7).1 (by decide)
  ⟨by decide, h.1, h.2.2.2.1 (by decide), h.2.2.2.2.1, h.2.2.2.2.2.1⟩

end Snode

end Duckcoin
